import Mathlib

/-!
Verification of the ledger replay and ownership reconciliation logic of the
NftOwnersSnapshotAndDraw service.

The JavaScript source is shallowly embedded:

* JavaScript `Map` objects and plain objects used as dictionaries are modelled
  as insertion-ordered association lists (`List (String × β)`); `Map.set`
  overwrites the value in place and keeps the original insertion position,
  `Map.delete` removes the entry, and `Object.entries` / `Array.from(map.values())`
  read the entries in insertion order.
* `Array.prototype.sort` with a consistent comparator is stable (ECMAScript 2019
  and later), so it is modelled by a stable insertion sort on an integer key;
  any two stable sorts for the same consistent comparator agree extensionally.
* `BigInt` arithmetic is modelled with `Int`; transfer amounts parsed from the
  ledger API's decimal digit strings are modelled with `Nat`.
* Network fetches are modelled by oracles: `Nat → HttpResp α` enumerates the
  responses to successive attempts of one retried fetch, and
  `Nat → Except String (List α)` gives, for each page index, the outcome of
  that page's fetch after its internal retries (`Except.error` when the retry
  budget was exhausted).
-/

namespace NftSnapshot

/-- JavaScript `Map.set m k v` / `obj[k] = v` on an insertion-ordered map:
if the key is present, the value is overwritten in place (position kept);
otherwise the binding is appended at the end. -/
def assocSet {β : Type} (m : List (String × β)) (k : String) (v : β) :
    List (String × β) :=
  if m.any (fun p => p.1 == k) then
    m.map (fun p => if p.1 == k then (k, v) else p)
  else
    m ++ [(k, v)]

/-- JavaScript `Map.get m k` / `obj[k]`: the value bound to `k`, if any. -/
def assocGet? {β : Type} (m : List (String × β)) (k : String) : Option β :=
  (m.find? (fun p => p.1 == k)).map Prod.snd

/-- JavaScript `Map.delete m k`: removes the binding for `k` (if any). -/
def assocDelete {β : Type} (m : List (String × β)) (k : String) :
    List (String × β) :=
  m.filter (fun p => p.1 != k)

/-- One step of a stable insertion sort on an integer key. The sort below
inserts each element into the already-sorted list of the elements that
followed it, so stability demands that `x` pass only elements with a strictly
smaller key and stop in front of the first element whose key is ≥ its own:
on equal keys the original order survives, exactly as with the stable
`Array.prototype.sort` under the comparator `(a, b) => key a - key b`. -/
def insertKeyed {α : Type} (key : α → Int) (x : α) : List α → List α
  | [] => [x]
  | y :: ys => if key y < key x then y :: insertKeyed key x ys else x :: y :: ys

/-- Stable sort ascending on an integer key, modelling the stable
`Array.prototype.sort((a, b) => key a - key b)` of the source. -/
def stableSortKeyed {α : Type} (key : α → Int) : List α → List α
  | [] => []
  | x :: xs => insertKeyed key x (stableSortKeyed key xs)

/-! ## NFT staking replay (src/index.js, `fetchStakedNfts`, lines 811-895)

The replay input is the merged list of transfer transactions fetched for the
staking contract (the stake-function page and the `ESDTNFTTransfer` page).
The source filters each list to `status === "success"`, concatenates, sorts by
`Number(timestamp)` ascending, and folds: for each transfer entry of the
transaction whose `collection` equals the target collection ticker, a stake
call sets `stakedNfts[identifier] = { owner: tx.sender, ... }` and a transfer
back sent by the contract deletes `stakedNfts[identifier]`. -/

/-- One entry of `tx.action.arguments.transfers`. -/
structure NftTransfer where
  collection : String
  identifier : String
deriving DecidableEq

/-- The fields of a raw transfer transaction read by the NFT replay.
`transfers` models `tx.action?.arguments?.transfers || []` (a missing
`action`/`arguments`/`transfers` chain reads as the empty list). -/
structure NftTx where
  timestamp : Int
  status : String
  function : String
  sender : String
  transfers : List NftTransfer
deriving DecidableEq

/-- A staking contract profile: the entry of the `contractAddresses` /
`stakingFunctions` tables selected by `contractLabel`
(src/index.js lines 812-827). -/
structure StakingContractProfile where
  contractAddress : String
  stakeFunction : String
deriving DecidableEq

/-- The NFT holder map: staked-NFT identifier to the staker address recorded
for it (the `owner` field of the stored record; the identifier is the key). -/
abbrev NftMap := List (String × String)

/-- The body of the inner `transfers.forEach` of the replay fold
(src/index.js lines 876-887): a stake call overwrites the identifier's entry
with the transaction sender, a successful `ESDTNFTTransfer` sent by the
staking contract deletes the entry, anything else is a no-op. -/
def replayNftItem (profile : StakingContractProfile) (m : NftMap)
    (tx : NftTx) (item : NftTransfer) : NftMap :=
  if tx.function == profile.stakeFunction then
    assocSet m item.identifier tx.sender
  else if tx.function == "ESDTNFTTransfer" && tx.sender == profile.contractAddress then
    assocDelete m item.identifier
  else
    m

/-- Processing of one transaction (src/index.js lines 871-888): its transfer
entries are filtered to the target collection and folded through
`replayNftItem`. -/
def replayNftTx (profile : StakingContractProfile) (collectionTicker : String)
    (m : NftMap) (tx : NftTx) : NftMap :=
  (tx.transfers.filter (fun t => t.collection == collectionTicker)).foldl
    (fun m item => replayNftItem profile m tx item) m

/-- The whole replay of `fetchStakedNfts` after fetching (src/index.js lines
849-890): keep successful transactions, sort by timestamp ascending (the
source's `sort((a, b) => Number(a.timestamp) - Number(b.timestamp))`, a stable
sort with no tie-break on equal timestamps), and fold into the holder map. -/
def fetchStakedNftsReplay (profile : StakingContractProfile)
    (collectionTicker : String) (txs : List NftTx) : NftMap :=
  (stableSortKeyed NftTx.timestamp
      (txs.filter (fun tx => tx.status == "success"))).foldl
    (replayNftTx profile collectionTicker) []

/-- The replay fold of src/index.js lines 871-888 threaded with the list of
warnings it records. No branch of the `forEach` body contains a `console`
call or any other recording of a warning — in particular the overwrite of an
existing entry by a second stake event is silent — so no branch appends to
the log. -/
def replayNftItemLog (profile : StakingContractProfile)
    (s : NftMap × List String) (tx : NftTx) (item : NftTransfer) :
    NftMap × List String :=
  if tx.function == profile.stakeFunction then
    (assocSet s.1 item.identifier tx.sender, s.2)
  else if tx.function == "ESDTNFTTransfer" && tx.sender == profile.contractAddress then
    (assocDelete s.1 item.identifier, s.2)
  else
    s

/-- `fetchStakedNftsReplay` together with the warnings the fold records. -/
def fetchStakedNftsReplayLog (profile : StakingContractProfile)
    (collectionTicker : String) (txs : List NftTx) : NftMap × List String :=
  (stableSortKeyed NftTx.timestamp
      (txs.filter (fun tx => tx.status == "success"))).foldl
    (fun s tx =>
      (tx.transfers.filter (fun t => t.collection == collectionTicker)).foldl
        (fun s item => replayNftItemLog profile s tx item) s)
    ([], [])

/-! ## Fungible staking replay (src/unnamed/part_005, `fetchStakedEsdts`,
lines 1046-1149) -/

/-- One entry of `tx.action.arguments.transfers` as read by the fungible
replay: the token key may sit in `token` or in `ticker`, and the amount is
`BigInt(value || '0')` where `value` is the API's non-negative decimal digit
string (missing `value` reads as 0). -/
structure EsdtTransfer where
  token : Option String
  ticker : Option String
  value : Option Nat
deriving DecidableEq

/-- A raw transfer transaction as read by the fungible replay. `transfers`
is `none` when the `tx.action`/`tx.action.arguments` chain is missing
(the source returns early in that case; a present-but-missing `transfers`
field reads as the empty list, which the source also skips). -/
structure EsdtTx where
  timestamp : Int
  status : String
  function : String
  sender : String
  receiver : String
  transfers : Option (List EsdtTransfer)
deriving DecidableEq

/-- The fungible holder state: address to staked balance (`BigInt`). -/
abbrev BalanceMap := List (String × Int)

/-- Reading `userBalances[user]`, defaulting a missing entry to `BigInt(0)`
(the source materialises the 0 entry first; observably this is the same as
defaulting the read). -/
def balGet (m : BalanceMap) (k : String) : Int :=
  (assocGet? m k).getD 0

/-- The amount of the relevant transfer:
`const amount = BigInt(relevantTransfer.value || '0')`
(src/unnamed/part_005 line 1081). -/
def transferAmount (relevantTransfer : EsdtTransfer) : Nat :=
  relevantTransfer.value.getD 0

/-- One transaction of the fungible replay fold (src/unnamed/part_005 lines
1070-1118): skip transactions without transfer data or without a transfer
matching the token or with a zero amount; credit `sender` on a successful
`stake`/`userStake` call received by the staking contract; debit `receiver`
on an `ESDTTransfer` sent by the staking contract, clamping the balance at
zero (with a recorded warning) when the amount exceeds it. -/
def esdtStep (token stakingContractAddress : String) (m : BalanceMap)
    (tx : EsdtTx) : BalanceMap :=
  match tx.transfers with
  | none => m
  | some transfers =>
    if transfers.isEmpty then m
    else
      match transfers.find? (fun t => t.token == some token || t.ticker == some token) with
      | none => m
      | some relevantTransfer =>
        if transferAmount relevantTransfer = 0 then m
        else if (tx.function == "stake" || tx.function == "userStake") &&
            tx.receiver == stakingContractAddress then
          assocSet m tx.sender (balGet m tx.sender + transferAmount relevantTransfer)
        else if tx.function == "ESDTTransfer" && tx.sender == stakingContractAddress then
          if (transferAmount relevantTransfer : Int) ≤ balGet m tx.receiver then
            assocSet m tx.receiver (balGet m tx.receiver - transferAmount relevantTransfer)
          else
            assocSet m tx.receiver 0
        else
          m

/-- The fungible replay of `fetchStakedEsdts` (src/unnamed/part_005 lines
1057-1118): keep successful transactions, sort chronologically by timestamp
(stable, no tie-break), and fold the stake/unstake events into the balances. -/
def fetchStakedEsdtsBalances (token stakingContractAddress : String)
    (txs : List EsdtTx) : BalanceMap :=
  (stableSortKeyed EsdtTx.timestamp
      (txs.filter (fun tx => tx.status == "success"))).foldl
    (esdtStep token stakingContractAddress) []

/-- The returned staked data (src/unnamed/part_005 lines 1135-1143): the
balance entries filtered to strictly positive balances, in insertion order. -/
def fetchStakedEsdtsResult (token stakingContractAddress : String)
    (txs : List EsdtTx) : BalanceMap :=
  (fetchStakedEsdtsBalances token stakingContractAddress txs).filter
    (fun p => decide (0 < p.2))

/-! ## Rate-limited fetch with retries and the paginated collector
(src/unnamed/part_005, `fetchWithRetry` lines 843-869 and
`fetchAllTransactions` lines 890-909) -/

/-- The outcome of one HTTP attempt: an OK response with a parsed body, a
non-OK status (429 and 5xx included), or a thrown network error. -/
inductive HttpResp (α : Type) where
  | ok (body : α)
  | httpStatus (code : Nat)
  | netError (msg : String)
deriving DecidableEq

/-- The retry loop of `fetchWithRetry` (src/unnamed/part_005 lines 843-869)
from attempt index `i` with `rem` attempts left: an OK response returns its
body; a 429, another non-OK status, or a thrown error all back off (delays
are not modelled) and retry; an exhausted budget throws. -/
def fetchWithRetryFrom {α : Type} (attempts : Nat → HttpResp α) :
    Nat → Nat → Except String α
  | _, 0 => .error "Failed to fetch after retries"
  | i, rem + 1 =>
    match attempts i with
    | .ok body => .ok body
    | .httpStatus _ => fetchWithRetryFrom attempts (i + 1) rem
    | .netError _ => fetchWithRetryFrom attempts (i + 1) rem

/-- `fetchWithRetry(url, options, retries)` over the attempt oracle. -/
def fetchWithRetry {α : Type} (attempts : Nat → HttpResp α) (retries : Nat) :
    Except String α :=
  fetchWithRetryFrom attempts 0 retries

/-- The `do … while (currentBatchSize === batchSize)` loop of
`fetchAllTransactions` (src/unnamed/part_005 lines 890-909), from page index
`i`: fetch the page (its retried fetch may end in a thrown error, which
propagates and aborts the whole collection), append its records, and continue
while the page was full. The result also carries the list of page indices
requested (page `i` is requested at offset `i * batchSize`). `fuel` bounds the
number of loop iterations the model executes; `none` means the bound was hit
before the loop exited, and every theorem below supplies enough fuel for the
scenario it describes. -/
def fetchAllTransactionsGo {α : Type} (pages : Nat → Except String (List α))
    (batchSize : Nat) : Nat → Nat → Option (Except String (List α × List Nat))
  | 0, _ => none
  | fuel + 1, i =>
    match pages i with
    | .error e => some (.error e)
    | .ok page =>
      if page.length = batchSize then
        match fetchAllTransactionsGo pages batchSize fuel (i + 1) with
        | none => none
        | some (.error e) => some (.error e)
        | some (.ok (rest, reqs)) => some (.ok (page ++ rest, i :: reqs))
      else
        some (.ok (page, [i]))

/-- `fetchAllTransactions(baseUrl)` with the source's `batchSize = 1000`,
starting at `from = 0`. -/
def fetchAllTransactions {α : Type} (pages : Nat → Except String (List α))
    (fuel : Nat) : Option (Except String (List α × List Nat)) :=
  fetchAllTransactionsGo pages 1000 fuel 0

/-- The batched fetch loop `makeCalls` inside `fetchNftOwnersInBatches`
(src/index.js lines 167-192): one throttled call per batch index in
`0 … repeats-1`; a batch whose retried fetch succeeds pushes its records,
while a batch whose retried fetch throws is caught, logged
(`Failed in batch …`) and skipped. The records of distinct batches are
modelled in batch-index order (the throttled calls may interleave their
pushes, which moves batches relative to each other but never restores a
failed batch's records). -/
def makeCalls {α : Type} (pages : Nat → Except String (List α))
    (repeats : Nat) : List α :=
  (List.range repeats).foldl
    (fun acc step =>
      match pages step with
      | .ok data => acc ++ data
      | .error _ => acc)
    []

/-! ## ESDT owner collection (src/index.js, `fetchEsdtOwners`, lines 653-719) -/

/-- The burn address singled out in the source. -/
def deadAddress : String :=
  "erd1deaddeaddeaddeaddeaddeaddeaddeaddeaddeaddeaddeaqtv0gag"

/-- `isSmartContractAddress` (src/index.js lines 208-211). -/
def isSmartContractAddress (address : String) : Bool :=
  address.startsWith "erd1qqqqqqqqqqqqq" || address == deadAddress

/-- One owner record of a `tokens/{token}/accounts` page, as stored by the
collection loop. -/
structure EsdtOwner where
  address : String
  balance : String
deriving DecidableEq

/-- The filter applied to each fetched record (src/index.js line 687): keep
everything when smart contracts are included, otherwise drop smart-contract
addresses and the burn address (the latter check is redundant — the burn
address already tests as a smart contract — and is kept faithfully). -/
def esdtOwnerKept (includeSmartContracts : Bool) (o : EsdtOwner) : Bool :=
  includeSmartContracts ||
    (!(isSmartContractAddress o.address) && o.address != deadAddress)

/-- `owners.set(owner.address, {address, balance})` on the insertion-ordered
`Map` keyed by address (src/index.js lines 688-691). -/
def ownersSet (m : List EsdtOwner) (o : EsdtOwner) : List EsdtOwner :=
  if m.any (fun p => p.address == o.address) then
    m.map (fun p => if p.address == o.address then o else p)
  else
    m ++ [o]

/-- The accumulation of `fetchEsdtOwners` over the concatenated stream of
fetched page records (src/index.js lines 676-718): each kept record is
`Map.set` into the owners map, and `Array.from(owners.values())` returns the
entries in insertion order. -/
def fetchEsdtOwnersFold (includeSmartContracts : Bool)
    (recs : List EsdtOwner) : List EsdtOwner :=
  recs.foldl
    (fun owners o =>
      if esdtOwnerKept includeSmartContracts o then ownersSet owners o else owners)
    []

/-! ## Ownership aggregation (src/index.js, `generateUniqueOwnerStats`,
lines 352-385), NFT mode

The claims concern the NFT branch (`assetType === "NFT"`, each record counts
one unit); the SFT/ESDT branches differ only in the increment added per
record. -/

/-- One input row: destructured as `{ owner, address }` (the NFT branch reads
no balance). -/
structure HolderRecord where
  owner : Option String
  address : Option String
deriving DecidableEq

/-- JavaScript `owner || address`: a missing or empty (falsy) `owner` falls
back to `address`. -/
def jsStringOr (a b : Option String) : Option String :=
  match a with
  | some s => if s = "" then b else some s
  | none => b

/-- The `account` of a row, or `none` when the row is skipped because
`account` is falsy (src/index.js lines 356-361). -/
def statAccount (r : HolderRecord) : Option String :=
  match jsStringOr r.owner r.address with
  | some s => if s = "" then none else some s
  | none => none

/-- One row of the stats accumulation in NFT mode (src/index.js lines
363-369): skip rows without an account, otherwise add one unit to the
account's counter in the insertion-ordered `stats` object. -/
def nftStatsStep (stats : List (String × Nat)) (r : HolderRecord) :
    List (String × Nat) :=
  match statAccount r with
  | none => stats
  | some account => assocSet stats account ((assocGet? stats account).getD 0 + 1)

/-- `generateUniqueOwnerStats(data, "NFT")` (src/index.js lines 352-385):
accumulate per-owner unit counts, read the entries in insertion order
(`Object.entries`; the owner addresses are not integer-like strings, so the
JavaScript object preserves insertion order), and sort descending by count
with the stable comparator `(a, b) => b.tokensCount - a.tokensCount` —
no tie-break of any kind is applied to equal counts. -/
def generateUniqueOwnerStatsNft (data : List HolderRecord) :
    List (String × Nat) :=
  stableSortKeyed (fun s => -(s.2 : Int)) (data.foldl nftStatsStep [])

/-! ## Winner selection (src/index.js lines 419-425)

`const shuffled = filteredAddresses.sort(() => 0.5 - Math.random());`
`const winners = shuffled.slice(0, numberOfWinners);`

The comparator ignores its arguments and answers at random, so it is not a
consistent comparator; ECMAScript then leaves the resulting order
implementation-defined (it is still some permutation of the array). The
model therefore takes the permutation the engine produced as a parameter. -/

/-- `shuffled.slice(0, numberOfWinners)` applied to the implementation-chosen
permutation of the pool. -/
def selectWinners {α : Type} (shuffled : List α) (numberOfWinners : Nat) :
    List α :=
  shuffled.take numberOfWinners

/-- Lexicographic comparison of character lists, used to state the
specification's tie-break order ("ties broken by owner address ascending");
the source applies no tie-break, so this order appears only in statements
about the spec, never in the embedded code. -/
def specCharListLt : List Char → List Char → Bool
  | [], [] => false
  | [], _ :: _ => true
  | _ :: _, [] => false
  | a :: as, b :: bs =>
      if a < b then true else if b < a then false else specCharListLt as bs

/-- The specification's ascending owner-address order. -/
def specAddressLt (a b : String) : Bool :=
  specCharListLt a.data b.data

/-! ## Concrete test inputs for scenarios, witnesses and counterexamples -/

/-- A successful stake transaction carrying a single transfer of `u` in
collection `ticker`, staked by `sender` at time `t` (test-input builder). -/
def mkStakeTx (stakeFunction sender ticker u : String) (t : Int) : NftTx :=
  { timestamp := t, status := "success", function := stakeFunction,
    sender := sender, transfers := [{ collection := ticker, identifier := u }] }

/-- A successful unstake transaction: the staking contract transfers `u` in
collection `ticker` back to its staker at time `t` (test-input builder). -/
def mkUnstakeTx (contractAddress ticker u : String) (t : Int) : NftTx :=
  { timestamp := t, status := "success", function := "ESDTNFTTransfer",
    sender := contractAddress, transfers := [{ collection := ticker, identifier := u }] }

/-- The example profile used for concrete replay scenarios. -/
def exProfile : StakingContractProfile :=
  { contractAddress := "erd1qqqqqqqqqqqqqpgqcontract", stakeFunction := "stake" }

/-- A successful fungible stake transaction (test-input builder). -/
def mkStakeEsdtTx (stakingContractAddress user token : String)
    (amount : Nat) (t : Int) : EsdtTx :=
  { timestamp := t, status := "success", function := "stake", sender := user,
    receiver := stakingContractAddress,
    transfers := some [{ token := some token, ticker := none, value := some amount }] }

/-- A successful fungible unstake transaction: the staking contract sends
`amount` of `token` back to `user` (test-input builder). -/
def mkUnstakeEsdtTx (stakingContractAddress user token : String)
    (amount : Nat) (t : Int) : EsdtTx :=
  { timestamp := t, status := "success", function := "ESDTTransfer",
    sender := stakingContractAddress, receiver := user,
    transfers := some [{ token := some token, ticker := none, value := some amount }] }

/-- A page oracle on which batch 1 exhausts its retries while batches 0 and 2
succeed (test input). -/
def dropPages : Nat → Except String (List String) := fun i =>
  if i = 0 then .ok ["rec0"]
  else if i = 1 then .error "HTTP Error 429"
  else if i = 2 then .ok ["rec2"]
  else .ok []

/-- A page oracle whose page 0 is full and whose page 1 exhausts its retries
(test input). -/
def abortPages : Nat → Except String (List Nat) := fun i =>
  if i = 0 then .ok (List.replicate 1000 0) else .error "HTTP Error 500"

/-- A page oracle returning three pages of 1000, 1000 and 400 records
(test input for the short-page scenario). -/
def threePages : Nat → Except String (List Nat) := fun i =>
  if i = 0 then .ok (List.replicate 1000 0)
  else if i = 1 then .ok (List.replicate 1000 1)
  else if i = 2 then .ok (List.replicate 400 2)
  else .ok []

/-! ## Generic lemmas about the stable sort -/

theorem insertKeyed_perm {α : Type} (key : α → Int) (x : α) :
    ∀ l : List α, (insertKeyed key x l).Perm (x :: l)
  | [] => List.Perm.refl _
  | y :: ys => by
      unfold insertKeyed
      by_cases h : key y < key x
      · rw [if_pos h]
        exact ((insertKeyed_perm key x ys).cons y).trans (List.Perm.swap x y ys)
      · rw [if_neg h]

theorem stableSortKeyed_perm {α : Type} (key : α → Int) :
    ∀ l : List α, (stableSortKeyed key l).Perm l
  | [] => List.Perm.refl _
  | x :: xs =>
      (insertKeyed_perm key x (stableSortKeyed key xs)).trans
        ((stableSortKeyed_perm key xs).cons x)

theorem mem_insertKeyed {α : Type} {key : α → Int} {x z : α} {l : List α}
    (h : z ∈ insertKeyed key x l) : z = x ∨ z ∈ l := by
  have := (insertKeyed_perm key x l).subset h
  simpa using this

theorem insertKeyed_pairwise {α : Type} (key : α → Int) (x : α) :
    ∀ l : List α, l.Pairwise (fun a b => key a ≤ key b) →
      (insertKeyed key x l).Pairwise (fun a b => key a ≤ key b)
  | [], _ => by simp [insertKeyed]
  | y :: ys, h => by
      rcases List.pairwise_cons.mp h with ⟨hy, hys⟩
      unfold insertKeyed
      by_cases hlt : key y < key x
      · rw [if_pos hlt]
        refine List.pairwise_cons.mpr ⟨?_, insertKeyed_pairwise key x ys hys⟩
        intro z hz
        rcases mem_insertKeyed hz with rfl | hz'
        · exact hlt.le
        · exact hy z hz'
      · rw [if_neg hlt]
        have hxy : key x ≤ key y := le_of_not_lt hlt
        refine List.pairwise_cons.mpr ⟨?_, h⟩
        intro z hz
        rcases List.mem_cons.mp hz with rfl | hz'
        · exact hxy
        · exact hxy.trans (hy z hz')

theorem stableSortKeyed_pairwise {α : Type} (key : α → Int) :
    ∀ l : List α,
      (stableSortKeyed key l).Pairwise (fun a b => key a ≤ key b)
  | [] => by simp [stableSortKeyed]
  | x :: xs =>
      insertKeyed_pairwise key x (stableSortKeyed key xs)
        (stableSortKeyed_pairwise key xs)

/-- Two sorted lists that are permutations of each other and whose keys are
pairwise distinct are equal: the replay order is uniquely determined once
no two events share a sort key. -/
theorem sorted_perm_eq_of_key_injective {α : Type} (key : α → Int) :
    ∀ l₁ l₂ : List α, l₁.Perm l₂ →
      l₁.Pairwise (fun a b => key a ≤ key b) →
      l₂.Pairwise (fun a b => key a ≤ key b) →
      l₁.Pairwise (fun a b => key a ≠ key b) →
      l₁ = l₂
  | [], l₂, hp, _, _, _ => (hp.nil_eq).symm ▸ rfl
  | a :: t₁, [], hp, _, _, _ => absurd hp.symm.nil_eq (by simp)
  | a :: t₁, b :: t₂, hp, hs₁, hs₂, hd => by
      rcases List.pairwise_cons.mp hs₁ with ⟨ha₁, hs₁'⟩
      rcases List.pairwise_cons.mp hs₂ with ⟨hb₂, hs₂'⟩
      rcases List.pairwise_cons.mp hd with ⟨hd₁, hd'⟩
      have hab : a = b := by
        rcases List.mem_cons.mp (hp.subset (List.mem_cons_self a t₁)) with h | ha₂
        · exact h
        · rcases List.mem_cons.mp (hp.symm.subset (List.mem_cons_self b t₂)) with h | hb₁
          · exact h.symm
          · exact absurd (le_antisymm (ha₁ b hb₁) (hb₂ a ha₂)) (hd₁ b hb₁)
      subst hab
      have ht : t₁ = t₂ :=
        sorted_perm_eq_of_key_injective key t₁ t₂ hp.cons_inv hs₁' hs₂' hd'
      rw [ht]

/-- Sorting is insensitive to the arrival order as long as no two elements
share a key: any permutation of the input sorts to the same list. -/
theorem stableSortKeyed_eq_of_perm {α : Type} (key : α → Int)
    (l l' : List α) (hperm : l.Perm l')
    (hdist : l.Pairwise (fun a b => key a ≠ key b)) :
    stableSortKeyed key l' = stableSortKeyed key l := by
  have hperm' : (stableSortKeyed key l').Perm (stableSortKeyed key l) :=
    (stableSortKeyed_perm key l').trans
      (hperm.symm.trans (stableSortKeyed_perm key l).symm)
  apply sorted_perm_eq_of_key_injective key _ _ hperm'
    (stableSortKeyed_pairwise key l') (stableSortKeyed_pairwise key l)
  exact (((hperm.trans (stableSortKeyed_perm key l').symm)).pairwise_iff
    (fun h e => h e.symm)).mp hdist

/-- Sorting a two-element list: the earlier-keyed element goes first and the
original order survives a tie. -/
theorem stableSortKeyed_pair {α : Type} (key : α → Int) (x y : α) :
    stableSortKeyed key [x, y] = if key y < key x then [y, x] else [x, y] := by
  by_cases h : key y < key x
  · simp [stableSortKeyed, insertKeyed, h]
  · simp [stableSortKeyed, insertKeyed, h]

/-! ## Lemmas about association-list maps -/

theorem assocGet?_assocDelete_self {β : Type} (m : List (String × β)) (k : String) :
    assocGet? (assocDelete m k) k = none := by
  unfold assocGet? assocDelete
  rw [List.find?_eq_none.mpr]
  · rfl
  · intro p hp
    rcases List.mem_filter.mp hp with ⟨-, hne⟩
    simpa using hne

theorem assocGet?_assocDelete_of_none {β : Type} (m : List (String × β))
    (k u : String) (h : assocGet? m u = none) :
    assocGet? (assocDelete m k) u = none := by
  unfold assocGet? assocDelete
  unfold assocGet? at h
  have hm : ∀ p ∈ m, ¬((p.1 == u) = true) := by
    intro p hp
    have := List.find?_eq_none.mp (by
      cases hfind : m.find? (fun p => p.1 == u) with
      | none => rfl
      | some q => rw [hfind] at h; exact absurd h (by simp)) p hp
    simpa using this
  rw [List.find?_eq_none.mpr]
  · rfl
  · intro p hp
    exact hm p (List.mem_filter.mp hp).1

theorem find?_assocSet_map {β : Type} (k : String) (v : β) :
    ∀ m : List (String × β), m.any (fun p => p.1 == k) = true →
      (m.map (fun p => if p.1 == k then (k, v) else p)).find?
        (fun p => p.1 == k) = some (k, v)
  | [], h => by simp at h
  | q :: m, h => by
      by_cases hq : (q.1 == k) = true
      · simp only [List.map_cons, if_pos hq]
        exact List.find?_cons_of_pos _ (by simp)
      · have h' : m.any (fun p => p.1 == k) = true := by
          simpa [List.any_cons, hq] using h
        simp only [List.map_cons, if_neg hq]
        rw [List.find?_cons_of_neg _ (by simpa using hq)]
        exact find?_assocSet_map k v m h'

theorem find?_append_single {β : Type} (k : String) (v : β) :
    ∀ m : List (String × β), m.any (fun p => p.1 == k) = false →
      (m ++ [(k, v)]).find? (fun p => p.1 == k) = some (k, v)
  | [], _ => by simp
  | q :: m, h => by
      rw [List.any_cons, Bool.or_eq_false_iff] at h
      rw [List.cons_append, List.find?_cons_of_neg _ (by simp [h.1])]
      exact find?_append_single k v m h.2

/-- Setting a key and reading it back yields the value just set, whether the
key was overwritten in place or appended. -/
theorem assocGet?_assocSet_self {β : Type} (m : List (String × β))
    (k : String) (v : β) : assocGet? (assocSet m k v) k = some v := by
  unfold assocGet? assocSet
  by_cases h : m.any (fun p => p.1 == k)
  · rw [if_pos h, find?_assocSet_map k v m h]
    rfl
  · rw [if_neg h, find?_append_single k v m (by
      cases hb : m.any (fun p => p.1 == k) with
      | true => exact absurd hb h
      | false => rfl)]
    rfl

/-- A value property holding for every entry survives `assocSet` with a value
satisfying it. -/
theorem assocSet_forall {β : Type} (P : β → Prop) (m : List (String × β))
    (k : String) (v : β) (hm : ∀ p ∈ m, P p.2) (hv : P v) :
    ∀ p ∈ assocSet m k v, P p.2 := by
  unfold assocSet
  by_cases h : m.any (fun p => p.1 == k)
  · rw [if_pos h]
    intro p hp
    rcases List.mem_map.mp hp with ⟨q, hq, rfl⟩
    by_cases hqk : (q.1 == k) = true
    · simpa [hqk] using hv
    · simpa [hqk] using hm q hq
  · rw [if_neg h]
    intro p hp
    rcases List.mem_append.mp hp with hp | hp
    · exact hm p hp
    · have := List.mem_singleton.mp hp
      subst this
      exact hv

/-! ## Lemmas about the NFT replay (claims C1-C3) -/

/-- Under the unstake conditions, one item step of the replay is exactly the
deletion of that item's identifier. -/
theorem replayNftItem_eq_delete (p : StakingContractProfile) (tx : NftTx)
    (m : NftMap) (it : NftTransfer)
    (hfn : tx.function = "ESDTNFTTransfer")
    (hne : p.stakeFunction ≠ "ESDTNFTTransfer")
    (hsender : tx.sender = p.contractAddress) :
    replayNftItem p m tx it = assocDelete m it.identifier := by
  unfold replayNftItem
  rw [if_neg, if_pos]
  · simp [hfn, hsender]
  · simp only [hfn, beq_iff_eq]
    exact fun h => hne h.symm

/-- Folding the item steps of an unstake transaction leaves `u` unbound as soon
as either some processed item carries identifier `u` or `u` was already
unbound: every step is a deletion, and deletions never re-bind a key. -/
theorem foldl_unstake_get_none (p : StakingContractProfile) (tx : NftTx)
    (hfn : tx.function = "ESDTNFTTransfer")
    (hne : p.stakeFunction ≠ "ESDTNFTTransfer")
    (hsender : tx.sender = p.contractAddress) :
    ∀ (items : List NftTransfer) (m : NftMap) (u : String),
      ((∃ it ∈ items, it.identifier = u) ∨ assocGet? m u = none) →
      assocGet? (items.foldl (fun m item => replayNftItem p m tx item) m) u = none
  | [], m, u, h => by
      rcases h with ⟨it, hit, -⟩ | h
      · exact absurd hit (List.not_mem_nil it)
      · simpa using h
  | it :: items, m, u, h => by
      rw [List.foldl_cons, replayNftItem_eq_delete p tx m it hfn hne hsender]
      apply foldl_unstake_get_none p tx hfn hne hsender items
      rcases h with ⟨it', hit', hid⟩ | h
      · rcases List.mem_cons.mp hit' with rfl | hmem
        · exact Or.inr (hid ▸ assocGet?_assocDelete_self m it'.identifier)
        · exact Or.inl ⟨it', hmem, hid⟩
      · exact Or.inr (assocGet?_assocDelete_of_none m it.identifier u h)

/-- Replay output of the NFT fold depends only on the multiset of events when
all (successful or not) events carry pairwise distinct timestamps. -/
theorem fetchStakedNftsReplay_perm_eq (p : StakingContractProfile)
    (ticker : String) (txs txs' : List NftTx)
    (hperm : txs.Perm txs')
    (hdist : txs.Pairwise (fun a b => a.timestamp ≠ b.timestamp)) :
    fetchStakedNftsReplay p ticker txs' = fetchStakedNftsReplay p ticker txs := by
  unfold fetchStakedNftsReplay
  have hfdist :
      (txs.filter (fun tx => tx.status == "success")).Pairwise
        (fun a b => a.timestamp ≠ b.timestamp) :=
    List.Pairwise.sublist (List.filter_sublist txs) hdist
  rw [stableSortKeyed_eq_of_perm NftTx.timestamp _ _
        (hperm.filter (fun tx => tx.status == "success")) hfdist]

/-! ## Lemmas about the fungible replay (claims C4 and C10) -/

/-- A balance read is non-negative whenever every stored balance is. -/
theorem balGet_nonneg (m : BalanceMap) (h : ∀ p ∈ m, 0 ≤ p.2) (k : String) :
    0 ≤ balGet m k := by
  unfold balGet assocGet?
  cases hfind : m.find? (fun p => p.1 == k) with
  | none => simp
  | some q =>
      have hq := List.mem_of_find?_eq_some hfind
      simpa using h q hq

/-- One fungible replay step keeps every stored balance non-negative: a stake
adds a non-negative amount to a non-negative balance, a covered unstake
leaves a non-negative difference, and an uncovered unstake writes zero. -/
theorem esdtStep_nonneg (token contract : String) (m : BalanceMap) (tx : EsdtTx)
    (h : ∀ p ∈ m, 0 ≤ p.2) : ∀ p ∈ esdtStep token contract m tx, 0 ≤ p.2 := by
  intro p hp
  unfold esdtStep at hp
  split at hp
  · exact h p hp
  · split at hp
    · exact h p hp
    · split at hp
      · exact h p hp
      · split_ifs at hp with h0 hstake hunstake hle
        · exact h p hp
        · refine assocSet_forall _ m _ _ h ?_ p hp
          have hb := balGet_nonneg m h tx.sender
          omega
        · refine assocSet_forall _ m _ _ h ?_ p hp
          omega
        · exact assocSet_forall _ m _ _ h le_rfl p hp
        · exact h p hp

theorem foldl_esdtStep_nonneg (token contract : String) :
    ∀ (txs : List EsdtTx) (m : BalanceMap), (∀ p ∈ m, 0 ≤ p.2) →
      ∀ p ∈ txs.foldl (esdtStep token contract) m, 0 ≤ p.2
  | [], m, h => by simpa using h
  | tx :: txs, m, h => by
      rw [List.foldl_cons]
      exact foldl_esdtStep_nonneg token contract txs _
        (esdtStep_nonneg token contract m tx h)

/-- An unstake whose amount exceeds the current balance clamps the balance
to zero rather than below. -/
theorem esdtStep_clamp (token contract user : String) (amount : Nat) (t : Int)
    (m : BalanceMap) (hpos : 0 < amount)
    (hlt : balGet m user < (amount : Int)) :
    balGet (esdtStep token contract m
      (mkUnstakeEsdtTx contract user token amount t)) user = 0 := by
  have h0 : amount ≠ 0 := Nat.pos_iff_ne_zero.mp hpos
  have hnle : ¬ ((amount : Int) ≤ (assocGet? m user).getD 0) := by
    unfold balGet at hlt
    exact not_le.mpr hlt
  simp [esdtStep, mkUnstakeEsdtTx, transferAmount, List.find?, h0, balGet, hnle,
    assocGet?_assocSet_self]

/-! ## Lemmas about the retried fetch and the paginated collector
(claims C5 and C6) -/

/-- When every attempt fails, the retry loop exhausts its budget and throws
(`Failed to fetch … after … retries`), returning no data. -/
theorem fetchWithRetryFrom_exhausted {α : Type} (attempts : Nat → HttpResp α)
    (h : ∀ k b, attempts k ≠ HttpResp.ok b) :
    ∀ (rem i : Nat),
      fetchWithRetryFrom attempts i rem = .error "Failed to fetch after retries"
  | 0, i => rfl
  | rem + 1, i => by
      rw [fetchWithRetryFrom]
      cases hk : attempts i with
      | ok body => exact absurd hk (h i body)
      | httpStatus code => exact fetchWithRetryFrom_exhausted attempts h rem (i + 1)
      | netError msg => exact fetchWithRetryFrom_exhausted attempts h rem (i + 1)

/-- If the pages before index `i + d` are all full and the page at `i + d`
fails, the collection loop started at `i` reaches the failing page and
propagates its error: nothing of the pages already collected survives. -/
theorem fetchAllTransactionsGo_error {α : Type}
    (pages : Nat → Except String (List α)) (e : String) :
    ∀ (d fuel i : Nat), d < fuel →
      (∀ j, j < d → ∃ p, pages (i + j) = Except.ok p ∧ p.length = 1000) →
      pages (i + d) = Except.error e →
      fetchAllTransactionsGo pages 1000 fuel i = some (Except.error e)
  | _, 0, _, hd, _, _ => absurd hd (Nat.not_lt_zero _)
  | 0, fuel + 1, i, _, _, herr => by
      rw [Nat.add_zero] at herr
      rw [fetchAllTransactionsGo, herr]
  | d + 1, fuel + 1, i, hd, hfull, herr => by
      obtain ⟨p, hp, hpl⟩ := hfull 0 (Nat.succ_pos d)
      rw [Nat.add_zero] at hp
      have hrec := fetchAllTransactionsGo_error pages e d fuel (i + 1)
        (Nat.lt_of_succ_lt_succ hd)
        (fun j hj => by
          have := hfull (j + 1) (Nat.succ_lt_succ hj)
          rwa [show i + (j + 1) = (i + 1) + j by omega] at this)
        (by rwa [show i + (d + 1) = (i + 1) + d by omega] at herr)
      rw [fetchAllTransactionsGo]
      simp [hp, hpl, hrec]

/-! ## Lemmas about the ESDT owner collection (claim C9) -/

theorem find?_ownersSet_map (o : EsdtOwner) :
    ∀ m : List EsdtOwner, m.any (fun p => p.address == o.address) = true →
      (m.map (fun p => if p.address == o.address then o else p)).find?
        (fun p => p.address == o.address) = some o
  | [], h => by simp at h
  | q :: m, h => by
      by_cases hq : (q.address == o.address) = true
      · simp only [List.map_cons, if_pos hq]
        exact List.find?_cons_of_pos _ (by simp)
      · have h' : m.any (fun p => p.address == o.address) = true := by
          simpa [List.any_cons, hq] using h
        simp only [List.map_cons, if_neg hq]
        rw [List.find?_cons_of_neg _ (by simpa using hq)]
        exact find?_ownersSet_map o m h'

theorem find?_ownersSet_append (o : EsdtOwner) (m : List EsdtOwner)
    (h : m.any (fun p => p.address == o.address) = false) :
    (m ++ [o]).find? (fun p => p.address == o.address) = some o := by
  rw [List.find?_append]
  have hm : m.find? (fun p => p.address == o.address) = none := by
    rw [List.find?_eq_none]
    exact List.any_eq_false.mp h
  rw [hm]
  simp

/-- After `Map.set`, looking up the set key finds the record just stored,
whether it overwrote in place or was appended. -/
theorem find?_ownersSet_self (m : List EsdtOwner) (o : EsdtOwner) :
    (ownersSet m o).find? (fun p => p.address == o.address) = some o := by
  unfold ownersSet
  by_cases h : m.any (fun p => p.address == o.address)
  · rw [if_pos h]
    exact find?_ownersSet_map o m h
  · rw [if_neg h]
    exact find?_ownersSet_append o m (by
      cases hb : m.any (fun p => p.address == o.address) with
      | true => exact absurd hb h
      | false => rfl)

theorem find?_map_ne (o : EsdtOwner) (a : String)
    (hne : (o.address == a) = false) :
    ∀ m : List EsdtOwner,
      (m.map (fun p => if p.address == o.address then o else p)).find?
        (fun p => p.address == a) = m.find? (fun p => p.address == a)
  | [] => rfl
  | q :: m => by
      by_cases hq : (q.address == o.address) = true
      · have hqa : (q.address == a) = false := by
          have hqo : q.address = o.address := by simpa using hq
          rw [hqo]
          exact hne
        simp only [List.map_cons, if_pos hq]
        rw [List.find?_cons, List.find?_cons, hne, hqa]
        exact find?_map_ne o a hne m
      · simp only [List.map_cons, if_neg hq]
        by_cases hqa : (q.address == a) = true
        · rw [List.find?_cons, List.find?_cons, hqa]
        · have hqa' : (q.address == a) = false := by
            cases hb : (q.address == a) with
            | true => exact absurd hb hqa
            | false => rfl
          rw [List.find?_cons, List.find?_cons, hqa']
          exact find?_map_ne o a hne m

theorem find?_append_ne (o : EsdtOwner) (a : String) (m : List EsdtOwner)
    (hne : (o.address == a) = false) :
    (m ++ [o]).find? (fun p => p.address == a) =
      m.find? (fun p => p.address == a) := by
  rw [List.find?_append]
  have h1 : List.find? (fun p => p.address == a) [o] = none := by simp [hne]
  rw [h1]
  exact Option.or_none

/-- `Map.set` leaves the lookup of every other address unchanged. -/
theorem find?_ownersSet_ne (m : List EsdtOwner) (o : EsdtOwner) (a : String)
    (hne : (o.address == a) = false) :
    (ownersSet m o).find? (fun p => p.address == a) =
      m.find? (fun p => p.address == a) := by
  unfold ownersSet
  by_cases h : m.any (fun p => p.address == o.address)
  · rw [if_pos h]
    exact find?_map_ne o a hne m
  · rw [if_neg h]
    exact find?_append_ne o a m hne

theorem getLast?_cons_or {γ : Type} (a : γ) (l : List γ) :
    (a :: l).getLast? = l.getLast?.or (some a) := by
  induction l generalizing a with
  | nil => rfl
  | cons b l ih =>
      rw [List.getLast?_cons_cons, ih b]
      cases hl : l.getLast? with
      | none => rfl
      | some c => rfl

/-- The accumulated owners map after any record stream resolves each address
to the last kept record carrying it, or falls back to what the accumulator
already held. -/
theorem foldl_ownersSet_find? (inc : Bool) :
    ∀ (recs acc : List EsdtOwner) (a : String),
      ((recs.foldl
          (fun owners o => if esdtOwnerKept inc o then ownersSet owners o else owners)
          acc).find? (fun p => p.address == a)) =
        (((recs.filter (esdtOwnerKept inc)).filter
            (fun o => o.address == a)).getLast?).or
          (acc.find? (fun p => p.address == a))
  | [], acc, a => by simp
  | r :: recs, acc, a => by
      rw [List.foldl_cons]
      by_cases hkept : esdtOwnerKept inc r = true
      · rw [if_pos hkept, foldl_ownersSet_find? inc recs (ownersSet acc r) a]
        have hfil : (r :: recs).filter (esdtOwnerKept inc) =
            r :: recs.filter (esdtOwnerKept inc) :=
          List.filter_cons_of_pos hkept
        rw [hfil]
        by_cases hra : (r.address == a) = true
        · have hfil2 : (r :: recs.filter (esdtOwnerKept inc)).filter
              (fun o => o.address == a) =
              r :: (recs.filter (esdtOwnerKept inc)).filter (fun o => o.address == a) :=
            List.filter_cons_of_pos hra
          rw [hfil2, getLast?_cons_or]
          have hra' : r.address = a := by simpa using hra
          have hself : (ownersSet acc r).find? (fun p => p.address == a) = some r := by
            rw [← hra']
            exact find?_ownersSet_self acc r
          rw [hself]
          cases hm : ((recs.filter (esdtOwnerKept inc)).filter
              (fun o => o.address == a)).getLast? with
          | none => rfl
          | some c => rfl
        · have hra' : (r.address == a) = false := by
            cases hb : (r.address == a) with
            | true => exact absurd hb hra
            | false => rfl
          have hfil2 : (r :: recs.filter (esdtOwnerKept inc)).filter
              (fun o => o.address == a) =
              (recs.filter (esdtOwnerKept inc)).filter (fun o => o.address == a) :=
            List.filter_cons_of_neg (by simp [hra'])
          rw [hfil2, find?_ownersSet_ne acc r a hra']
      · rw [if_neg hkept, foldl_ownersSet_find? inc recs acc a]
        have hfil : (r :: recs).filter (esdtOwnerKept inc) =
            recs.filter (esdtOwnerKept inc) :=
          List.filter_cons_of_neg hkept
        rw [hfil]

/-- `Map.set` never introduces a duplicate address. -/
theorem ownersSet_addresses_nodup (m : List EsdtOwner) (o : EsdtOwner)
    (h : (m.map EsdtOwner.address).Nodup) :
    ((ownersSet m o).map EsdtOwner.address).Nodup := by
  unfold ownersSet
  by_cases hm : m.any (fun p => p.address == o.address)
  · rw [if_pos hm]
    have hmap : (m.map (fun p => if p.address == o.address then o else p)).map
        EsdtOwner.address = m.map EsdtOwner.address := by
      rw [List.map_map]
      apply List.map_congr_left
      intro p hp
      by_cases hpo : (p.address == o.address) = true
      · have hpo' : p.address = o.address := by simpa using hpo
        simp [Function.comp, hpo, hpo']
      · simp [Function.comp, hpo]
    rw [hmap]
    exact h
  · rw [if_neg hm]
    rw [List.map_append, List.nodup_append]
    refine ⟨h, List.nodup_singleton _, ?_⟩
    intro x hx hx2
    rcases List.mem_map.mp hx with ⟨p, hp, rfl⟩
    have hxo : p.address = o.address := by simpa using hx2
    have hfalse : ∀ q ∈ m, ¬ ((fun p => p.address == o.address) q = true) := by
      apply List.any_eq_false.mp
      cases hb : m.any (fun p => p.address == o.address) with
      | true => exact absurd hb hm
      | false => rfl
    exact hfalse p hp (by simp [hxo])

theorem foldl_ownersSet_nodup (inc : Bool) :
    ∀ (recs acc : List EsdtOwner), (acc.map EsdtOwner.address).Nodup →
      (((recs.foldl
          (fun owners o => if esdtOwnerKept inc o then ownersSet owners o else owners)
          acc)).map EsdtOwner.address).Nodup
  | [], acc, h => by simpa using h
  | r :: recs, acc, h => by
      rw [List.foldl_cons]
      by_cases hkept : esdtOwnerKept inc r = true
      · rw [if_pos hkept]
        exact foldl_ownersSet_nodup inc recs _ (ownersSet_addresses_nodup acc r h)
      · rw [if_neg hkept]
        exact foldl_ownersSet_nodup inc recs acc h

/-! ## Claim theorems -/

/-- C1: replaying a stake of unit `COLL-01` by `addr1` at t=1 followed by a
transfer back sent by the staking contract at t=2 leaves the holder map
empty; and in general, processing an unstake transaction (function
`ESDTNFTTransfer`, sender the staking contract, distinct from the stake
function) deletes the entry of every unit it transfers from the holder map. -/
theorem claim_C1_nft_unstake_deletes :
    (fetchStakedNftsReplay exProfile "COLL"
        [mkStakeTx "stake" "addr1" "COLL" "COLL-01" 1,
         mkUnstakeTx exProfile.contractAddress "COLL" "COLL-01" 2] = []) ∧
    (∀ (p : StakingContractProfile) (ticker : String) (m : NftMap)
        (tx : NftTx) (u : String),
        tx.function = "ESDTNFTTransfer" →
        p.stakeFunction ≠ "ESDTNFTTransfer" →
        tx.sender = p.contractAddress →
        (∃ item ∈ tx.transfers, item.collection = ticker ∧ item.identifier = u) →
        assocGet? (replayNftTx p ticker m tx) u = none) := by
  constructor
  · decide
  · intro p ticker m tx u hfn hne hsender ⟨item, hmem, hcoll, hid⟩
    unfold replayNftTx
    apply foldl_unstake_get_none p tx hfn hne hsender
    refine Or.inl ⟨item, ?_, hid⟩
    exact List.mem_filter.mpr ⟨hmem, by simp [hcoll]⟩

/-- Witness for C1: the deletion statement applied to a holder map in which
`COLL-01` is bound to `addr1` and a concrete unstake transaction. -/
theorem claim_C1_nft_unstake_deletes_witness :
    assocGet? (replayNftTx exProfile "COLL" [("COLL-01", "addr1")]
      (mkUnstakeTx exProfile.contractAddress "COLL" "COLL-01" 2)) "COLL-01" = none :=
  claim_C1_nft_unstake_deletes.2 exProfile "COLL" [("COLL-01", "addr1")]
    (mkUnstakeTx exProfile.contractAddress "COLL" "COLL-01" 2) "COLL-01"
    rfl (by decide) rfl ⟨⟨"COLL", "COLL-01"⟩, by decide, rfl, rfl⟩

/-- C2 (amended): the replay output is invariant under permutation of the
input event array provided all events carry pairwise distinct timestamps.
The source sorts by timestamp only — not by `(timestamp, nonce)` — so this
is the exact extent of the order invariance; see the counterexample for
equal timestamps. -/
theorem claim_C2_order_invariance (p : StakingContractProfile)
    (ticker : String) (txs txs' : List NftTx) (hperm : txs.Perm txs')
    (hdist : txs.Pairwise (fun a b => a.timestamp ≠ b.timestamp)) :
    fetchStakedNftsReplay p ticker txs' = fetchStakedNftsReplay p ticker txs :=
  fetchStakedNftsReplay_perm_eq p ticker txs txs' hperm hdist

/-- Witness for C2 (amended): two stake events with distinct timestamps
replay identically in either arrival order. -/
theorem claim_C2_order_invariance_witness :
    fetchStakedNftsReplay exProfile "COLL"
        [mkStakeTx "stake" "addrB" "COLL" "COLL-07" 2,
         mkStakeTx "stake" "addrA" "COLL" "COLL-07" 1] =
      fetchStakedNftsReplay exProfile "COLL"
        [mkStakeTx "stake" "addrA" "COLL" "COLL-07" 1,
         mkStakeTx "stake" "addrB" "COLL" "COLL-07" 2] :=
  claim_C2_order_invariance exProfile "COLL" _ _
    (List.Perm.swap _ _ _) (by decide)

/-- Counterexample to C2 as stated: two stake events for the same unit by
different senders at the same timestamp. The sort has no nonce tie-break and
is stable, so each arrival order survives sorting and the two permuted
inputs replay to different holder maps. -/
theorem claim_C2_equal_timestamp_counterexample :
    fetchStakedNftsReplay exProfile "COLL"
        [mkStakeTx "stake" "addrA" "COLL" "COLL-07" 5,
         mkStakeTx "stake" "addrB" "COLL" "COLL-07" 5] ≠
      fetchStakedNftsReplay exProfile "COLL"
        [mkStakeTx "stake" "addrB" "COLL" "COLL-07" 5,
         mkStakeTx "stake" "addrA" "COLL" "COLL-07" 5] ∧
    List.Perm
      [mkStakeTx "stake" "addrA" "COLL" "COLL-07" 5,
       mkStakeTx "stake" "addrB" "COLL" "COLL-07" 5]
      [mkStakeTx "stake" "addrB" "COLL" "COLL-07" 5,
       mkStakeTx "stake" "addrA" "COLL" "COLL-07" 5] :=
  ⟨by decide, List.Perm.swap _ _ _⟩

/-- C3 (amended): when the same unit is staked twice — at t1 by `a`, at t2 by
`b` with t1 < t2 — the final owner is `b` (last-write-wins, in either arrival
order), and the replay records no warning at all: the overwrite of the
existing entry is silent. -/
theorem claim_C3_duplicate_stake_last_write_wins (p : StakingContractProfile)
    (ticker u a b : String) (t1 t2 : Int) (ht : t1 < t2) :
    assocGet? (fetchStakedNftsReplay p ticker
      [mkStakeTx p.stakeFunction a ticker u t1,
       mkStakeTx p.stakeFunction b ticker u t2]) u = some b ∧
    assocGet? (fetchStakedNftsReplay p ticker
      [mkStakeTx p.stakeFunction b ticker u t2,
       mkStakeTx p.stakeFunction a ticker u t1]) u = some b ∧
    (fetchStakedNftsReplayLog p ticker
      [mkStakeTx p.stakeFunction a ticker u t1,
       mkStakeTx p.stakeFunction b ticker u t2]).2 = [] := by
  have hnl : ¬ (t2 < t1) := not_lt.mpr ht.le
  refine ⟨?_, ?_, ?_⟩
  · simp [fetchStakedNftsReplay, mkStakeTx, stableSortKeyed, insertKeyed,
      replayNftTx, replayNftItem, assocSet, assocGet?, hnl, ht]
  · simp [fetchStakedNftsReplay, mkStakeTx, stableSortKeyed, insertKeyed,
      replayNftTx, replayNftItem, assocSet, assocGet?, hnl, ht]
  · simp [fetchStakedNftsReplayLog, mkStakeTx, stableSortKeyed, insertKeyed,
      replayNftItemLog, assocSet, hnl, ht]

/-- Witness for C3 (amended): Scenario B with concrete values — `COLL-02`
staked by `addr2` at t=1 and by `addr3` at t=2 ends owned by `addr3`. -/
theorem claim_C3_duplicate_stake_last_write_wins_witness :
    assocGet? (fetchStakedNftsReplay exProfile "COLL"
      [mkStakeTx exProfile.stakeFunction "addr2" "COLL" "COLL-02" 1,
       mkStakeTx exProfile.stakeFunction "addr3" "COLL" "COLL-02" 2]) "COLL-02" =
      some "addr3" :=
  (claim_C3_duplicate_stake_last_write_wins exProfile "COLL" "COLL-02"
    "addr2" "addr3" 1 2 (by decide)).1

/-- Counterexample to C3 as stated: in Scenario B the entry for `COLL-02` is
overwritten (the final map holds the later staker `addr3`), yet the list of
warnings recorded by the replay fold is empty — no `duplicate-stake` warning
exists anywhere in the fold's code path. -/
theorem claim_C3_no_warning_counterexample :
    fetchStakedNftsReplayLog exProfile "COLL"
        [mkStakeTx "stake" "addr2" "COLL" "COLL-02" 1,
         mkStakeTx "stake" "addr3" "COLL" "COLL-02" 2] =
      ([("COLL-02", "addr3")], []) := by
  decide

/-- C4: every balance in the fungible replay output is non-negative, for
every input event sequence; and an unstake event whose amount exceeds the
address's current balance clamps that balance to exactly zero instead of
driving it negative. -/
theorem claim_C4_fungible_balance_nonneg (token stakingContractAddress : String) :
    (∀ (txs : List EsdtTx),
        ∀ p ∈ fetchStakedEsdtsBalances token stakingContractAddress txs, 0 ≤ p.2) ∧
    (∀ (m : BalanceMap) (user : String) (amount : Nat) (t : Int),
        0 < amount → balGet m user < (amount : Int) →
        balGet (esdtStep token stakingContractAddress m
          (mkUnstakeEsdtTx stakingContractAddress user token amount t)) user = 0) := by
  constructor
  · intro txs
    exact foldl_esdtStep_nonneg token stakingContractAddress _ []
      (fun p hp => absurd hp (List.not_mem_nil p))
  · intro m user amount t h1 h2
    exact esdtStep_clamp token stakingContractAddress user amount t m h1 h2

/-- Witness for C4: staking 100 and unstaking 130 leaves `addr1` clamped at
balance 0 (not −30), and the clamp statement evaluated on a concrete map. -/
theorem claim_C4_fungible_balance_nonneg_witness :
    (("addr1", (0 : Int)) ∈ fetchStakedEsdtsBalances "TOK-1" "erd1c"
        [mkStakeEsdtTx "erd1c" "addr1" "TOK-1" 100 1,
         mkUnstakeEsdtTx "erd1c" "addr1" "TOK-1" 130 2]) ∧
    0 ≤ (("addr1", (0 : Int)) : String × Int).2 ∧
    balGet (esdtStep "TOK-1" "erd1c" [("addr1", 100)]
      (mkUnstakeEsdtTx "erd1c" "addr1" "TOK-1" 130 2)) "addr1" = 0 :=
  ⟨by decide, (claim_C4_fungible_balance_nonneg "TOK-1" "erd1c").1
     [mkStakeEsdtTx "erd1c" "addr1" "TOK-1" 100 1,
      mkUnstakeEsdtTx "erd1c" "addr1" "TOK-1" 130 2] ("addr1", (0 : Int)) (by decide),
   (claim_C4_fungible_balance_nonneg "TOK-1" "erd1c").2 [("addr1", 100)] "addr1" 130 2
     (by decide) (by decide)⟩

/-- C5 (amended): in the part_005 collector, an exhausted retry budget throws
(first conjunct: all attempts failing makes `fetchWithRetry` return the typed
error and no data), and a page that fails after its retries aborts the whole
collection with that error (second conjunct) — but see the counterexample:
the batched collector of src/index.js `fetchNftOwnersInBatches` instead
catches a failed batch and silently drops its records. -/
theorem claim_C5_page_failure_aborts :
    (∀ (α : Type) (attempts : Nat → HttpResp α) (retries : Nat),
        (∀ k b, attempts k ≠ HttpResp.ok b) →
        fetchWithRetry attempts retries = .error "Failed to fetch after retries") ∧
    (∀ (α : Type) (pages : Nat → Except String (List α)) (d fuel : Nat) (e : String),
        d < fuel →
        (∀ j, j < d → ∃ p, pages j = Except.ok p ∧ p.length = 1000) →
        pages d = Except.error e →
        fetchAllTransactions pages fuel = some (Except.error e)) := by
  constructor
  · intro α attempts retries h
    exact fetchWithRetryFrom_exhausted attempts h retries 0
  · intro α pages d fuel e hd hfull herr
    unfold fetchAllTransactions
    exact fetchAllTransactionsGo_error pages e d fuel 0 hd
      (fun j hj => by simpa using hfull j hj)
      (by simpa using herr)

/-- Witness for C5 (amended): a fetch whose every attempt answers 429
exhausts its 15 retries with the typed error, and a collection whose page 1
fails aborts with that page's error. -/
theorem claim_C5_page_failure_aborts_witness :
    fetchWithRetry (fun _ => (HttpResp.httpStatus 429 : HttpResp Nat)) 15 =
      Except.error "Failed to fetch after retries" ∧
    fetchAllTransactions abortPages 4 = some (Except.error "HTTP Error 500") :=
  ⟨claim_C5_page_failure_aborts.1 Nat _ 15 (fun k b h => by simp at h),
   claim_C5_page_failure_aborts.2 Nat abortPages 1 4 "HTTP Error 500" (by decide)
     (fun j hj => by
        have hj0 : j = 0 := by omega
        subst hj0
        exact ⟨List.replicate 1000 0, rfl, List.length_replicate 1000 0⟩)
     rfl⟩

/-- Counterexample to C5 as stated: in `fetchNftOwnersInBatches`
(src/index.js lines 167-192) the batch loop catches a batch's exhausted-retry
error and continues. With batch 1 failing, the collector returns the records
of batches 0 and 2 — a plain result with `rec1`'s page silently missing, not
an abort. -/
theorem claim_C5_silent_batch_drop_counterexample :
    makeCalls dropPages 3 = ["rec0", "rec2"] ∧
    "rec1" ∉ makeCalls dropPages 3 ∧
    dropPages 1 = Except.error "HTTP Error 429" :=
  ⟨by decide, by decide, rfl⟩

/-- C6: against a source with pages of 1000, 1000 and 400 records (page size
1000), the collector returns all 2400 records in page order, requests exactly
the page indices 0, 1, 2 (offsets 0, 1000, 2000) in increasing order, and
stops after the short page — no request beyond index 2 is issued. -/
theorem claim_C6_collector_stops_after_short_page {α : Type}
    (pages : Nat → Except String (List α)) (p0 p1 p2 : List α) (fuel : Nat)
    (h0 : pages 0 = .ok p0) (h0l : p0.length = 1000)
    (h1 : pages 1 = .ok p1) (h1l : p1.length = 1000)
    (h2 : pages 2 = .ok p2) (h2l : p2.length = 400) :
    fetchAllTransactions pages (fuel + 3) =
      some (.ok (p0 ++ (p1 ++ p2), [0, 1, 2])) ∧
    (p0 ++ (p1 ++ p2)).length = 2400 := by
  constructor
  · unfold fetchAllTransactions
    simp [fetchAllTransactionsGo, h0, h1, h2, h0l, h1l, h2l]
  · simp [h0l, h1l, h2l]

/-- Witness for C6: the three-page scenario evaluated on a concrete source. -/
theorem claim_C6_collector_stops_after_short_page_witness :
    fetchAllTransactions threePages 3 =
      some (Except.ok
        (List.replicate 1000 (0 : Nat) ++
          (List.replicate 1000 1 ++ List.replicate 400 2), [0, 1, 2])) ∧
    (List.replicate 1000 (0 : Nat) ++
      (List.replicate 1000 1 ++ List.replicate 400 2)).length = 2400 :=
  claim_C6_collector_stops_after_short_page threePages _ _ _ 0
    rfl (List.length_replicate 1000 0) rfl (List.length_replicate 1000 1)
    rfl (List.length_replicate 400 2)

/-- C7 (amended): for every pool and every permutation of it the engine may
produce for the inconsistent random comparator, slicing the first `n`
elements returns exactly `min n P` records, all drawn from the pool and
pairwise distinct whenever the pool is duplicate-free. Uniformity of the
selection probability is not part of this statement — the code does not
guarantee it; see the counterexample. -/
theorem claim_C7_selector_min_distinct (α : Type) (pool shuffled : List α)
    (n : Nat) (hperm : shuffled.Perm pool) :
    (selectWinners shuffled n).length = min n pool.length ∧
    (∀ x ∈ selectWinners shuffled n, x ∈ pool) ∧
    (pool.Nodup → (selectWinners shuffled n).Nodup) := by
  refine ⟨?_, ?_, ?_⟩
  · rw [selectWinners, List.length_take, hperm.length_eq]
  · intro x hx
    exact hperm.subset (List.take_subset n shuffled hx)
  · intro hnd
    exact List.Nodup.sublist (List.take_sublist n shuffled) (hperm.nodup_iff.mpr hnd)

/-- Witness for C7 (amended): a two-element pool under the reversing
permutation. -/
theorem claim_C7_selector_min_distinct_witness :
    (selectWinners ["b", "a"] 1).length = min 1 (["a", "b"] : List String).length ∧
    (∀ x ∈ selectWinners ["b", "a"] 1, x ∈ (["a", "b"] : List String)) ∧
    ((["a", "b"] : List String).Nodup → (selectWinners ["b", "a"] 1).Nodup) :=
  claim_C7_selector_min_distinct String ["a", "b"] ["b", "a"] 1
    (List.Perm.swap _ _ _)

/-- Counterexample to C7 as stated: the selection probability is not
guaranteed uniform. `sort(() => 0.5 - Math.random())` uses an inconsistent
comparator, for which ECMAScript leaves the resulting order
implementation-defined; leaving the array in its original order is a
conforming outcome (witnessed here by the identity permutation), and under it
drawing one winner from the two-element pool always selects the first element
and never the second — selection probabilities 1 and 0, not ½ each. -/
theorem claim_C7_uniformity_counterexample :
    List.Perm ["alice", "bob"] ["alice", "bob"] ∧
    selectWinners ["alice", "bob"] 1 = ["alice"] ∧
    "bob" ∉ selectWinners ["alice", "bob"] 1 :=
  ⟨List.Perm.refl _, rfl, by decide⟩

/-- C8 (amended): the NFT ownership aggregation output is sorted descending
by unit count. On equal counts no address tie-break is applied: the stable
sort keeps the first-appearance order of the owners, as the counterexample
shows. -/
theorem claim_C8_stats_sorted_descending (data : List HolderRecord) :
    (generateUniqueOwnerStatsNft data).Pairwise (fun a b => b.2 ≤ a.2) := by
  unfold generateUniqueOwnerStatsNft
  exact (stableSortKeyed_pairwise _ _).imp (fun h => by omega)

/-- Counterexample to C8 as stated: owners `b` and `a` each holding one unit,
with `b` appearing first in the input. The two stats entries tie at count 1
and the output keeps `b` before `a`, although `a` is the lexicographically
smaller address — ties are not broken by owner address ascending. -/
theorem claim_C8_tie_order_counterexample :
    generateUniqueOwnerStatsNft
        [{ owner := some "b", address := none },
         { owner := some "a", address := none }] =
      [("b", 1), ("a", 1)] ∧
    specAddressLt "a" "b" = true :=
  ⟨by decide, by decide⟩

/-- C9: the ESDT owner collection returns at most one entry per address —
the address list of the output has no duplicates — and each address resolves
to exactly the last kept record carrying it in the processed page stream
(so its balance is the balance of the last page entry processed). -/
theorem claim_C9_esdt_owners_dedup_last_wins (inc : Bool) (recs : List EsdtOwner) :
    ((fetchEsdtOwnersFold inc recs).map EsdtOwner.address).Nodup ∧
    ∀ a : String,
      (fetchEsdtOwnersFold inc recs).find? (fun o => o.address == a) =
        ((recs.filter (esdtOwnerKept inc)).filter (fun o => o.address == a)).getLast? := by
  constructor
  · exact foldl_ownersSet_nodup inc recs [] (by simp)
  · intro a
    unfold fetchEsdtOwnersFold
    rw [foldl_ownersSet_find? inc recs [] a]
    simp [Option.or_none]

/-- C10: the fungible staking replay output contains only entries with
strictly positive staked balance, and every balance entry netting to zero or
below is omitted from the returned holder list. -/
theorem claim_C10_positive_balances_only (token stakingContractAddress : String)
    (txs : List EsdtTx) :
    (∀ p ∈ fetchStakedEsdtsResult token stakingContractAddress txs, 0 < p.2) ∧
    (∀ p ∈ fetchStakedEsdtsBalances token stakingContractAddress txs, p.2 ≤ 0 →
       p ∉ fetchStakedEsdtsResult token stakingContractAddress txs) := by
  constructor
  · intro p hp
    have hm := List.mem_filter.mp hp
    simpa using hm.2
  · intro p hp hle hmem
    have hm := List.mem_filter.mp hmem
    have h2 : 0 < p.2 := by simpa using hm.2
    omega

/-- Witness for C10: `addr1` stakes 100 and unstakes 100 (netting zero) and
is omitted; `addr2` keeps 50 staked and appears with a positive balance. -/
theorem claim_C10_positive_balances_only_witness :
    0 < (("addr2", (50 : Int)) : String × Int).2 ∧
    ("addr1", (0 : Int)) ∉ fetchStakedEsdtsResult "TOK-1" "erd1c"
      [mkStakeEsdtTx "erd1c" "addr1" "TOK-1" 100 1,
       mkStakeEsdtTx "erd1c" "addr2" "TOK-1" 50 2,
       mkUnstakeEsdtTx "erd1c" "addr1" "TOK-1" 100 3] :=
  ⟨(claim_C10_positive_balances_only "TOK-1" "erd1c"
      [mkStakeEsdtTx "erd1c" "addr1" "TOK-1" 100 1,
       mkStakeEsdtTx "erd1c" "addr2" "TOK-1" 50 2,
       mkUnstakeEsdtTx "erd1c" "addr1" "TOK-1" 100 3]).1 ("addr2", (50 : Int)) (by decide),
   (claim_C10_positive_balances_only "TOK-1" "erd1c"
      [mkStakeEsdtTx "erd1c" "addr1" "TOK-1" 100 1,
       mkStakeEsdtTx "erd1c" "addr2" "TOK-1" 50 2,
       mkUnstakeEsdtTx "erd1c" "addr1" "TOK-1" 100 3]).2 ("addr1", (0 : Int)) (by decide)
     (by decide)⟩

end NftSnapshot
